import Mathlib

/-!
Shallow embedding of the billbot bill-ingestion pipeline.

Each definition mirrors one function of the TypeScript source:

* `src/types/bills.ts`            — `BillType`, `ParsedBill`
* `src/config/billSenders.ts`     — `ORIGIN_CONFIG.subjectKeywords`, `categorizeBySubject`
* `src/durable-objects/bills.ts`  — the `bills` table, `storeBills`, `prune`
* `src/durable-objects/oauthTokens.ts` — the `tokens` table, `refreshIfNeeded`
* `src/services/billParser.ts`    — `parseBillWithGemini` retry/confidence loop,
                                    the workflow's subject-hint plumbing,
                                    `refreshTokenIfNeeded` (workflow step 1)
* `src/services/discord.ts`       — `formatBillSummary`, `formatDate`

JavaScript numbers are modelled as `ℚ` (the amounts and confidences in play
are exact decimals), timestamps as `Int` (epoch milliseconds), strings as
Lean `String` with character-list helpers so that concrete instances can be
evaluated by `decide`.
-/

namespace BillBot

open scoped List

/-! ## types/bills.ts -/

/-- Bill type enumeration (`BillTypeSchema` in `src/types/bills.ts`). -/
inductive BillType where
  | electricity
  | hot_water
  | water
  | internet
deriving DecidableEq, Repr

/-- Parsed bill data (`ParsedBillSchema` in `src/types/bills.ts`). -/
structure ParsedBill where
  type : BillType
  amount : ℚ
  issue_date : String
  confidence : ℚ
deriving DecidableEq, Repr

/-! ## config/billSenders.ts -/

/-- Keyword table `ORIGIN_CONFIG.subjectKeywords`, in the object's key
enumeration order (electricity, hot_water, water, internet). -/
def subjectKeywords : List (BillType × List String) :=
  [ (.electricity, ["electricity", "power", "energy bill"])
  , (.hot_water,   ["hot water", "gas", "heating"])
  , (.water,       ["water bill", "water usage"])
  , (.internet,    ["internet", "broadband", "nbn"]) ]

/-- Character-level model of JS `String.prototype.toLowerCase` (the subjects
and keywords in play are ASCII). -/
def lowerChars (s : String) : List Char := s.data.map Char.toLower

/-- Auxiliary: does `needle` occur at the head of `haystack`? -/
def charsHasPre : List Char → List Char → Bool
  | _, [] => true
  | [], _ :: _ => false
  | a :: as, b :: bs => a == b && charsHasPre as bs

/-- Model of JS `String.prototype.includes`: `needle` occurs as a contiguous
substring of `haystack`. -/
def charsContains : List Char → List Char → Bool
  | [], needle => needle.isEmpty
  | h :: t, needle => charsHasPre (h :: t) needle || charsContains t needle

/-- Does the (already lower-cased) subject match some keyword of `kws`?
This is the inner loop body of `categorizeBySubject`. -/
def keywordsMatch (normalizedSubject : List Char) (kws : List String) : Bool :=
  kws.any (fun kw => charsContains normalizedSubject (lowerChars kw))

/-- `categorizeBySubject` from `src/config/billSenders.ts`: lower-case the
subject, walk the keyword table in enumeration order, return the first bill
type one of whose (lower-cased) keywords is a substring; `none` otherwise. -/
def categorizeBySubject (subject : String) : Option BillType :=
  let normalizedSubject := lowerChars subject
  subjectKeywords.findSome? fun p =>
    if keywordsMatch normalizedSubject p.2 then some p.1 else none

/-- Position of each bill type in the keyword table's enumeration order. -/
def typeOrderIndex : BillType → Nat
  | .electricity => 0
  | .hot_water => 1
  | .water => 2
  | .internet => 3

/-- Keywords of one bill type, as configured in `ORIGIN_CONFIG`. -/
def keywordsOf : BillType → List String
  | .electricity => ["electricity", "power", "energy bill"]
  | .hot_water => ["hot water", "gas", "heating"]
  | .water => ["water bill", "water usage"]
  | .internet => ["internet", "broadband", "nbn"]

/-- Case analysis over the four bill types, stated as an iff so that a
universally quantified statement over `BillType` can be expanded by `simp`. -/
theorem BillType.forall_iff {P : BillType → Prop} :
    (∀ t, P t) ↔ P .electricity ∧ P .hot_water ∧ P .water ∧ P .internet :=
  ⟨fun h => ⟨h _, h _, h _, h _⟩, fun ⟨a, b, c, d⟩ t => by cases t <;> assumption⟩

/-- Unfolding of the classifier's table walk into the explicit first-match
cascade over the enumeration order. -/
theorem categorizeBySubject_eq_cascade (s : String) :
    categorizeBySubject s =
      (if keywordsMatch (lowerChars s) (keywordsOf .electricity) then some BillType.electricity
       else if keywordsMatch (lowerChars s) (keywordsOf .hot_water) then some .hot_water
       else if keywordsMatch (lowerChars s) (keywordsOf .water) then some .water
       else if keywordsMatch (lowerChars s) (keywordsOf .internet) then some .internet
       else none) := by
  cases h0 : keywordsMatch (lowerChars s) (keywordsOf .electricity) <;>
  cases h1 : keywordsMatch (lowerChars s) (keywordsOf .hot_water) <;>
  cases h2 : keywordsMatch (lowerChars s) (keywordsOf .water) <;>
  cases h3 : keywordsMatch (lowerChars s) (keywordsOf .internet) <;>
    simp_all [categorizeBySubject, subjectKeywords, List.findSome?, keywordsOf]

/-- C8: `categorizeBySubject` lower-cases the subject and tests the bill
types' keyword sets in the fixed order electricity, hot_water, water,
internet: it returns `some t` exactly when `t`'s keyword set matches the
lower-cased subject and no earlier type's does, and `none` exactly when no
keyword of any type matches; on the three concrete subjects it returns
electricity, internet and none respectively. -/
theorem categorizeBySubject_first_match_spec :
    (∀ s t, categorizeBySubject s = some t ↔
      (keywordsMatch (lowerChars s) (keywordsOf t) = true ∧
       ∀ t', typeOrderIndex t' < typeOrderIndex t →
         keywordsMatch (lowerChars s) (keywordsOf t') = false)) ∧
    (∀ s, categorizeBySubject s = none ↔
      ∀ t, keywordsMatch (lowerChars s) (keywordsOf t) = false) ∧
    categorizeBySubject "Your Electricity Bill" = some .electricity ∧
    categorizeBySubject "Monthly Internet Invoice" = some .internet ∧
    categorizeBySubject "Welcome to our newsletter" = none := by
  refine ⟨?_, ?_, by decide, by decide, by decide⟩
  · intro s t
    rw [categorizeBySubject_eq_cascade]
    cases h0 : keywordsMatch (lowerChars s) (keywordsOf .electricity) <;>
    cases h1 : keywordsMatch (lowerChars s) (keywordsOf .hot_water) <;>
    cases h2 : keywordsMatch (lowerChars s) (keywordsOf .water) <;>
    cases h3 : keywordsMatch (lowerChars s) (keywordsOf .internet) <;>
    cases t <;>
      simp_all [BillType.forall_iff, typeOrderIndex]
  · intro s
    rw [categorizeBySubject_eq_cascade]
    cases h0 : keywordsMatch (lowerChars s) (keywordsOf .electricity) <;>
    cases h1 : keywordsMatch (lowerChars s) (keywordsOf .hot_water) <;>
    cases h2 : keywordsMatch (lowerChars s) (keywordsOf .water) <;>
    cases h3 : keywordsMatch (lowerChars s) (keywordsOf .internet) <;>
      simp_all [BillType.forall_iff]

/-- Witness for C8: the spec theorem applied at the concrete subject
"Your Electricity Bill" and type electricity, its hypotheses discharged by
evaluation. -/
theorem categorizeBySubject_first_match_spec_witness :
    keywordsMatch (lowerChars "Your Electricity Bill") (keywordsOf .electricity) = true ∧
    categorizeBySubject "Your Electricity Bill" = some .electricity :=
  ⟨by decide,
   (categorizeBySubject_first_match_spec.1 "Your Electricity Bill" .electricity).2
     ⟨by decide, fun t' h => by cases t' <;> simp_all [typeOrderIndex]⟩⟩

/-! ## durable-objects/bills.ts -/

/-- One row of the `bills` table, columns in schema order
(`initializeDatabase` in `src/durable-objects/bills.ts`). `id` is the
`INTEGER PRIMARY KEY AUTOINCREMENT`, `timestamp` the ingestion time. -/
structure BillRow where
  id : Nat
  user_id : String
  type : BillType
  amount : ℚ
  issue_date : String
  gmail_message_id : String
  confidence : ℚ
  timestamp : Int
deriving DecidableEq, Repr

/-- The `bills` table together with its autoincrement counter. -/
structure BillsDB where
  rows : List BillRow
  nextId : Nat
deriving DecidableEq, Repr

/-- Fresh table: SQLite AUTOINCREMENT hands out ids starting at 1. -/
def emptyBillsDB : BillsDB := ⟨[], 1⟩

/-- The retention cap `MAX_BILLS_PER_USER` from `src/durable-objects/bills.ts`. -/
def MAX_BILLS_PER_USER : Nat := 50

/-- Input element of `storeBills`: a `ParsedBill` together with its
`gmail_message_id`. -/
structure BillInput where
  bill : ParsedBill
  gmail_message_id : String
deriving DecidableEq, Repr

/-- Effect of the `DO UPDATE SET` clause on a conflicting row: the columns
type/amount/issue_date/confidence/timestamp are overwritten from the
incoming bill; `id`, `user_id` and `gmail_message_id` are not in the update
list and stay as they were. -/
def overwriteWith (b : ParsedBill) (timestamp : Int) (r : BillRow) : BillRow :=
  { r with type := b.type, amount := b.amount, issue_date := b.issue_date,
           confidence := b.confidence, timestamp := timestamp }

@[simp] theorem overwriteWith_id (b : ParsedBill) (ts : Int) (r : BillRow) :
    (overwriteWith b ts r).id = r.id := rfl

@[simp] theorem overwriteWith_user_id (b : ParsedBill) (ts : Int) (r : BillRow) :
    (overwriteWith b ts r).user_id = r.user_id := rfl

@[simp] theorem overwriteWith_gmail (b : ParsedBill) (ts : Int) (r : BillRow) :
    (overwriteWith b ts r).gmail_message_id = r.gmail_message_id := rfl

/-- One `INSERT ... ON CONFLICT(gmail_message_id) DO UPDATE SET` statement
from `storeBills`: if some row (of any user — the UNIQUE constraint is on
`gmail_message_id` alone) already carries the message id, overwrite its
bill columns in place; otherwise append a fresh row for `userId`. -/
def upsertBill (userId : String) (b : ParsedBill) (gmailMessageId : String)
    (timestamp : Int) (db : BillsDB) : BillsDB :=
  if db.rows.any (fun r => r.gmail_message_id == gmailMessageId) then
    { db with rows := db.rows.map fun r =>
        if r.gmail_message_id == gmailMessageId then overwriteWith b timestamp r
        else r }
  else
    { rows := db.rows ++
        [⟨db.nextId, userId, b.type, b.amount, b.issue_date, gmailMessageId,
          b.confidence, timestamp⟩],
      nextId := db.nextId + 1 }

/-- The upsert loop of `storeBills`: every bill of one call shares the single
`Date.now()` value taken at the top of the function. -/
def upsertMany (userId : String) (bills : List BillInput) (now : Int)
    (db : BillsDB) : BillsDB :=
  bills.foldl (fun acc b => upsertBill userId b.bill b.gmail_message_id now acc) db

/-- Rows of one user, in table order (`WHERE user_id = ?`). -/
def userRows (userId : String) (db : BillsDB) : List BillRow :=
  db.rows.filter fun r => r.user_id == userId

/-- Oldest-first ordering used by `prune`'s `ORDER BY timestamp ASC`;
SQLite resolves equal timestamps by rowid scan order, modelled here as the
`id` tie-break. -/
def oldestLe (a b : BillRow) : Bool :=
  a.timestamp < b.timestamp || (a.timestamp == b.timestamp && a.id ≤ b.id)

/-- Ids selected by `prune`'s subquery `SELECT id FROM bills WHERE user_id =
? ORDER BY timestamp ASC LIMIT toDelete` with `toDelete = count - cap`. -/
def pruneDoomed (userId : String) (db : BillsDB) : List Nat :=
  (((userRows userId db).mergeSort oldestLe).take
      ((userRows userId db).length - MAX_BILLS_PER_USER)).map (·.id)

/-- `prune` from `src/durable-objects/bills.ts`: count the user's rows and,
when the count exceeds the cap, delete the `count - MAX_BILLS_PER_USER`
oldest rows of that user (selected by id, as in the `DELETE ... WHERE id IN
(SELECT id ... ORDER BY timestamp ASC LIMIT ?)` statement). -/
def prune (userId : String) (db : BillsDB) : BillsDB :=
  if MAX_BILLS_PER_USER < (userRows userId db).length then
    { db with rows := db.rows.filter fun r => !((pruneDoomed userId db).contains r.id) }
  else db

/-- `storeBills` from `src/durable-objects/bills.ts`: upsert every bill with
the shared ingestion timestamp, then auto-prune the user. -/
def storeBills (userId : String) (bills : List BillInput) (now : Int)
    (db : BillsDB) : BillsDB :=
  prune userId (upsertMany userId bills now db)

/-- Well-formedness of the table, maintained by SQLite: primary keys are
distinct and below the autoincrement counter, and the UNIQUE constraint on
`gmail_message_id` holds. -/
structure BillsWF (db : BillsDB) : Prop where
  ids_nodup : (db.rows.map (·.id)).Nodup
  ids_lt : ∀ r ∈ db.rows, r.id < db.nextId
  gmail_nodup : (db.rows.map (·.gmail_message_id)).Nodup

theorem billsWF_empty : BillsWF emptyBillsDB :=
  ⟨List.nodup_nil, by simp [emptyBillsDB], List.nodup_nil⟩

/-- The update branch of `upsertBill` leaves every row's id unchanged. -/
theorem upsert_update_ids (m : String) (b : ParsedBill) (ts : Int) (rows : List BillRow) :
    ((rows.map fun r =>
        if r.gmail_message_id == m then overwriteWith b ts r else r).map (·.id)) =
      rows.map (·.id) := by
  simp only [List.map_map]
  apply List.map_congr_left
  intro r _
  by_cases hm : r.gmail_message_id = m <;> simp [hm]

/-- The update branch of `upsertBill` leaves every row's message id unchanged. -/
theorem upsert_update_gmails (m : String) (b : ParsedBill) (ts : Int) (rows : List BillRow) :
    ((rows.map fun r =>
        if r.gmail_message_id == m then overwriteWith b ts r else r).map (·.gmail_message_id)) =
      rows.map (·.gmail_message_id) := by
  simp only [List.map_map]
  apply List.map_congr_left
  intro r _
  by_cases hm : r.gmail_message_id = m <;> simp [hm]

/-- The update branch of `upsertBill` leaves every row's user unchanged. -/
theorem upsert_update_users (m : String) (b : ParsedBill) (ts : Int) (rows : List BillRow) :
    ((rows.map fun r =>
        if r.gmail_message_id == m then overwriteWith b ts r else r).map (·.user_id)) =
      rows.map (·.user_id) := by
  simp only [List.map_map]
  apply List.map_congr_left
  intro r _
  by_cases hm : r.gmail_message_id = m <;> simp [hm]

theorem billsWF_upsertBill {db : BillsDB} (h : BillsWF db)
    (u : String) (b : ParsedBill) (m : String) (ts : Int) :
    BillsWF (upsertBill u b m ts db) := by
  unfold upsertBill
  split
  · refine ⟨?_, ?_, ?_⟩
    · exact (upsert_update_ids m b ts db.rows) ▸ h.ids_nodup
    · intro r hr
      simp only [List.mem_map] at hr
      obtain ⟨r₀, hr₀, heq⟩ := hr
      have hlt := h.ids_lt r₀ hr₀
      have hid : r.id = r₀.id := by
        by_cases hm : r₀.gmail_message_id = m <;> simp [hm] at heq <;> simp [← heq]
      simpa [hid] using hlt
    · exact (upsert_update_gmails m b ts db.rows) ▸ h.gmail_nodup
  · rename_i hnone
    have hfresh : ∀ r ∈ db.rows, ¬(r.gmail_message_id = m) := by
      intro r hr
      simp only [List.any_eq_true, not_exists, not_and, Bool.not_eq_true] at hnone
      have := hnone r hr
      simpa using this
    refine ⟨?_, ?_, ?_⟩
    · simp only [List.map_append, List.map_cons, List.map_nil]
      rw [List.nodup_append]
      refine ⟨h.ids_nodup, List.nodup_singleton _, ?_⟩
      intro i hi
      simp only [List.mem_map] at hi
      obtain ⟨r, hr, hrid⟩ := hi
      have := h.ids_lt r hr
      simp only [List.mem_singleton]
      omega
    · intro r hr
      simp only [List.mem_append, List.mem_singleton] at hr
      rcases hr with hr | hr
      · have := h.ids_lt r hr
        simp only
        omega
      · subst hr
        simp
    · simp only [List.map_append, List.map_cons, List.map_nil]
      rw [List.nodup_append]
      refine ⟨h.gmail_nodup, List.nodup_singleton _, ?_⟩
      intro g hg
      simp only [List.mem_map] at hg
      obtain ⟨r, hr, hrg⟩ := hg
      simp only [List.mem_singleton]
      intro hgm
      exact hfresh r hr (hrg.trans hgm)

theorem billsWF_upsertMany {db : BillsDB} (h : BillsWF db)
    (u : String) (bills : List BillInput) (now : Int) :
    BillsWF (upsertMany u bills now db) := by
  induction bills generalizing db with
  | nil => exact h
  | cons b bs ih => exact ih (billsWF_upsertBill h u b.bill b.gmail_message_id now)

theorem billsWF_prune {db : BillsDB} (h : BillsWF db) (u : String) :
    BillsWF (prune u db) := by
  unfold prune
  split
  · exact ⟨h.ids_nodup.sublist ((List.filter_sublist db.rows).map (·.id)),
          fun r hr => h.ids_lt r (List.mem_of_mem_filter hr),
          h.gmail_nodup.sublist ((List.filter_sublist db.rows).map (·.gmail_message_id))⟩
  · exact h

theorem billsWF_storeBills {db : BillsDB} (h : BillsWF db)
    (u : String) (bills : List BillInput) (now : Int) :
    BillsWF (storeBills u bills now db) :=
  billsWF_prune (billsWF_upsertMany h u bills now) u

theorem oldestLe_trans (a b c : BillRow) :
    oldestLe a b → oldestLe b c → oldestLe a c := by
  simp only [oldestLe, Bool.or_eq_true, Bool.and_eq_true, decide_eq_true_eq, beq_iff_eq]
  omega

theorem oldestLe_total (a b : BillRow) : oldestLe a b || oldestLe b a := by
  simp only [oldestLe, Bool.or_eq_true, Bool.and_eq_true, decide_eq_true_eq, beq_iff_eq]
  omega

/-- If a row of the table has its id among the doomed ids of `prune`'s
subquery, it is one of the `toDelete` oldest rows of the user (by the
oldest-first ordering) — primary keys are unique, so the id determines the
row. -/
theorem mem_take_of_doomed {u : String} {db : BillsDB} (h : BillsWF db)
    {r : BillRow} (hr : r ∈ db.rows)
    (hd : (pruneDoomed u db).contains r.id = true) :
    r ∈ ((userRows u db).mergeSort oldestLe).take
        ((userRows u db).length - MAX_BILLS_PER_USER) := by
  have hd' : r.id ∈ pruneDoomed u db := List.elem_iff.mp hd
  simp only [pruneDoomed, List.mem_map] at hd'
  rename' hd' => hd
  obtain ⟨t, ht, htid⟩ := hd
  have htS : t ∈ (userRows u db).mergeSort oldestLe := List.mem_of_mem_take ht
  have htU : t ∈ userRows u db := (List.mergeSort_perm (userRows u db) oldestLe).mem_iff.mp htS
  have htrows : t ∈ db.rows := List.mem_of_mem_filter htU
  have : t = r := List.inj_on_of_nodup_map h.ids_nodup htrows hr htid
  exact this ▸ ht

/-- Conversely a row among the `toDelete` oldest has its id in the doomed
list. -/
theorem doomed_of_mem_take {u : String} {db : BillsDB} {r : BillRow}
    (ht : r ∈ ((userRows u db).mergeSort oldestLe).take
        ((userRows u db).length - MAX_BILLS_PER_USER)) :
    (pruneDoomed u db).contains r.id = true :=
  List.elem_iff.mpr (List.mem_map_of_mem (·.id) ht)

/-- What `prune` keeps for the user, when the cap is exceeded: exactly the
rows beyond the `toDelete` oldest, i.e. the newest `MAX_BILLS_PER_USER`
rows in the oldest-first ordering. -/
theorem prune_userRows_perm (u : String) (db : BillsDB) (h : BillsWF db)
    (hc : MAX_BILLS_PER_USER < (userRows u db).length) :
    userRows u (prune u db) ~
      ((userRows u db).mergeSort oldestLe).drop
        ((userRows u db).length - MAX_BILLS_PER_USER) := by
  set q : BillRow → Bool := fun r => !((pruneDoomed u db).contains r.id) with hq
  set k := (userRows u db).length - MAX_BILLS_PER_USER with hk
  set S := (userRows u db).mergeSort oldestLe with hS
  have hSperm : S ~ userRows u db := List.mergeSort_perm _ _
  have hSnodup : S.Nodup := by
    refine hSperm.nodup_iff.mpr ?_
    exact (h.ids_nodup.sublist ((List.filter_sublist db.rows).map (·.id))).of_map _
  have hU' : userRows u (prune u db) = (userRows u db).filter q := by
    unfold prune
    rw [if_pos hc]
    simp only [userRows, List.filter_filter]
    congr 1
    funext r
    exact Bool.and_comm _ _
  have hUq : (userRows u db).filter q ~ S.filter q := (hSperm.filter q).symm
  have hsplit : S = S.take k ++ S.drop k := (List.take_append_drop k S).symm
  have hTnil : (S.take k).filter q = [] := by
    rw [List.filter_eq_nil_iff]
    intro r hrT
    simp only [hq, Bool.not_eq_true', Bool.not_eq_false]
    exact doomed_of_mem_take (hS ▸ hk ▸ hrT)
  have hDself : (S.drop k).filter q = S.drop k := by
    rw [List.filter_eq_self]
    intro r hrD
    simp only [hq, Bool.not_eq_true']
    by_contra hcon
    simp only [Bool.not_eq_false] at hcon
    have hrS : r ∈ S := List.mem_of_mem_drop hrD
    have hrU : r ∈ userRows u db := hSperm.mem_iff.mp hrS
    have hrT : r ∈ S.take k := mem_take_of_doomed h (List.mem_of_mem_filter hrU) hcon
    have := (List.nodup_append.mp (hsplit ▸ hSnodup)).2.2
    exact this hrT hrD
  calc userRows u (prune u db) = (userRows u db).filter q := hU'
    _ ~ S.filter q := hUq
    _ = (S.take k ++ S.drop k).filter q := by rw [← hsplit]
    _ = (S.take k).filter q ++ (S.drop k).filter q := List.filter_append _ _
    _ = S.drop k := by rw [hTnil, hDself, List.nil_append]

/-- After `prune`, the user's row count is at most the cap. -/
theorem prune_cap (u : String) (db : BillsDB) (h : BillsWF db) :
    (userRows u (prune u db)).length ≤ MAX_BILLS_PER_USER := by
  by_cases hc : MAX_BILLS_PER_USER < (userRows u db).length
  · have := (prune_userRows_perm u db h hc).length_eq
    rw [this, List.length_drop, List.length_mergeSort]
    omega
  · have : prune u db = db := by unfold prune; rw [if_neg hc]
    rw [this]
    omega

/-- C1: after any `storeBills` call (an upsert batch followed by the
automatic prune) the user holds at most `MAX_BILLS_PER_USER = 50` rows, and
eviction removes only oldest rows: every row of the user present after the
upserts but deleted by the prune is no newer (by ingestion timestamp) than
every row the user retains. -/
theorem storeBills_cap_and_evicts_oldest
    (db : BillsDB) (hwf : BillsWF db) (u : String) (bills : List BillInput) (now : Int) :
    (userRows u (storeBills u bills now db)).length ≤ MAX_BILLS_PER_USER ∧
    ∀ d ∈ userRows u (upsertMany u bills now db),
      d ∉ (storeBills u bills now db).rows →
      ∀ kp ∈ userRows u (storeBills u bills now db),
        d.timestamp ≤ kp.timestamp := by
  have hmid : BillsWF (upsertMany u bills now db) := billsWF_upsertMany hwf u bills now
  set mid := upsertMany u bills now db with hmiddef
  have hstore : storeBills u bills now db = prune u mid := rfl
  refine ⟨hstore ▸ prune_cap u mid hmid, ?_⟩
  intro d hd hnot kp hkp
  rw [hstore] at hnot hkp
  by_cases hc : MAX_BILLS_PER_USER < (userRows u mid).length
  · have hdrows : d ∈ mid.rows := List.mem_of_mem_filter hd
    have hprows : (prune u mid).rows =
        mid.rows.filter fun r => !((pruneDoomed u mid).contains r.id) := by
      unfold prune
      rw [if_pos hc]
    have hqd : (pruneDoomed u mid).contains d.id = true := by
      by_contra hq
      exact hnot (hprows ▸ List.mem_filter.mpr
        ⟨hdrows, by simp [Bool.not_eq_true] at hq ⊢; exact hq⟩)
    have hdT : d ∈ ((userRows u mid).mergeSort oldestLe).take
        ((userRows u mid).length - MAX_BILLS_PER_USER) :=
      mem_take_of_doomed hmid hdrows hqd
    have hkD : kp ∈ ((userRows u mid).mergeSort oldestLe).drop
        ((userRows u mid).length - MAX_BILLS_PER_USER) :=
      (prune_userRows_perm u mid hmid hc).mem_iff.mp hkp
    have hsorted : ((userRows u mid).mergeSort oldestLe).Pairwise
        (fun a b => oldestLe a b = true) :=
      List.sorted_mergeSort oldestLe_trans oldestLe_total (userRows u mid)
    have hcross := (List.pairwise_append.mp
      ((List.take_append_drop ((userRows u mid).length - MAX_BILLS_PER_USER)
        ((userRows u mid).mergeSort oldestLe)).symm ▸ hsorted)).2.2
    have := hcross d hdT kp hkD
    simp only [oldestLe, Bool.or_eq_true, Bool.and_eq_true, decide_eq_true_eq,
      beq_iff_eq] at this
    omega
  · have : prune u mid = mid := by unfold prune; rw [if_neg hc]
    rw [this] at hnot
    exact absurd (List.mem_of_mem_filter hd) hnot

/-- Witness for C1: the cap bound instantiated at a concrete store built
from the empty table. -/
theorem storeBills_cap_and_evicts_oldest_witness :
    (userRows "u1" (storeBills "u1"
        [⟨⟨.electricity, 100, "2026-01-15T00:00:00.000Z", 9/10⟩, "m1"⟩] 1000
        emptyBillsDB)).length ≤ MAX_BILLS_PER_USER :=
  (storeBills_cap_and_evicts_oldest emptyBillsDB billsWF_empty "u1"
    [⟨⟨.electricity, 100, "2026-01-15T00:00:00.000Z", 9/10⟩, "m1"⟩] 1000).1

/-- When no row carries the message id, the upsert takes the plain-insert
branch and appends a fresh row. -/
theorem upsertBill_fresh {db : BillsDB} {m : String} (u : String) (b : ParsedBill) (ts : Int)
    (hfresh : ∀ r ∈ db.rows, r.gmail_message_id ≠ m) :
    upsertBill u b m ts db =
      ⟨db.rows ++ [⟨db.nextId, u, b.type, b.amount, b.issue_date, m, b.confidence, ts⟩],
       db.nextId + 1⟩ := by
  unfold upsertBill
  rw [if_neg]
  simp only [List.any_eq_true, beq_iff_eq, not_exists, not_and]
  exact hfresh

/-- When some row carries the message id, the upsert takes the
`DO UPDATE SET` branch. -/
theorem upsertBill_hit {db : BillsDB} {m : String} (u : String) (b : ParsedBill) (ts : Int)
    (hhit : ∃ r ∈ db.rows, r.gmail_message_id = m) :
    upsertBill u b m ts db =
      { db with rows := db.rows.map fun r =>
          if r.gmail_message_id == m then overwriteWith b ts r else r } := by
  unfold upsertBill
  rw [if_pos]
  simp only [List.any_eq_true, beq_iff_eq]
  exact hhit

/-- Below the cap, `prune` is the identity. -/
theorem prune_noop {u : String} {db : BillsDB}
    (h : (userRows u db).length ≤ MAX_BILLS_PER_USER) :
    prune u db = db := by
  unfold prune
  rw [if_neg (by omega)]

/-- C2: upserting twice under the same `(user, provider_message_id)` key —
starting from a table that does not yet hold the key and whose user is
below the cap — leaves exactly one row carrying that message id; the row
keeps the primary key minted by the first call (so the second call
overwrote it in place, and the table's row count did not change) and
carries the type/amount/issue_date/confidence and ingestion timestamp of
the second call. -/
theorem storeBills_upsert_idempotent
    (db : BillsDB) (u m : String) (b b' : ParsedBill) (n1 n2 : Int)
    (hcount : (userRows u db).length + 1 ≤ MAX_BILLS_PER_USER)
    (hfresh : ∀ r ∈ db.rows, r.gmail_message_id ≠ m) :
    ((storeBills u [⟨b', m⟩] n2 (storeBills u [⟨b, m⟩] n1 db)).rows.filter
        fun r => r.gmail_message_id == m) =
      [⟨db.nextId, u, b'.type, b'.amount, b'.issue_date, m, b'.confidence, n2⟩] ∧
    (storeBills u [⟨b', m⟩] n2 (storeBills u [⟨b, m⟩] n1 db)).rows.length =
      (storeBills u [⟨b, m⟩] n1 db).rows.length := by
  have hone : ∀ (bb : ParsedBill) (n : Int) (d : BillsDB),
      upsertMany u [⟨bb, m⟩] n d = upsertBill u bb m n d := by
    intro bb n d
    simp [upsertMany]
  set row1 : BillRow := ⟨db.nextId, u, b.type, b.amount, b.issue_date, m, b.confidence, n1⟩
    with hrow1
  have husers1 : userRows u ⟨db.rows ++ [row1], db.nextId + 1⟩ =
      userRows u db ++ [row1] := by
    simp [userRows, List.filter_append, hrow1]
  have h1 : storeBills u [⟨b, m⟩] n1 db = ⟨db.rows ++ [row1], db.nextId + 1⟩ := by
    unfold storeBills
    rw [hone, upsertBill_fresh u b n1 hfresh]
    apply prune_noop
    rw [husers1]
    simp only [List.length_append, List.length_cons, List.length_nil]
    omega
  set row2 : BillRow := ⟨db.nextId, u, b'.type, b'.amount, b'.issue_date, m, b'.confidence, n2⟩
    with hrow2
  have hmap : ((db.rows ++ [row1]).map fun r =>
      if r.gmail_message_id == m then overwriteWith b' n2 r else r) =
      db.rows ++ [row2] := by
    rw [List.map_append]
    congr 1
    · conv_rhs => rw [show db.rows = db.rows.map id from (List.map_id db.rows).symm]
      apply List.map_congr_left
      intro r hr
      simp [hfresh r hr]
    · simp [hrow1, hrow2, overwriteWith]
  have h2 : storeBills u [⟨b', m⟩] n2 ⟨db.rows ++ [row1], db.nextId + 1⟩ =
      ⟨db.rows ++ [row2], db.nextId + 1⟩ := by
    unfold storeBills
    rw [hone, upsertBill_hit u b' n2 ⟨row1, by simp, rfl⟩]
    simp only [hmap]
    apply prune_noop
    have : userRows u ⟨db.rows ++ [row2], db.nextId + 1⟩ = userRows u db ++ [row2] := by
      simp [userRows, List.filter_append, hrow2]
    rw [this]
    simp only [List.length_append, List.length_cons, List.length_nil]
    omega
  rw [h1, h2]
  constructor
  · simp only [List.filter_append]
    have hnil : (db.rows.filter fun r => r.gmail_message_id == m) = [] := by
      rw [List.filter_eq_nil_iff]
      intro r hr
      simpa using hfresh r hr
    rw [hnil]
    simp [hrow2]
  · simp

/-- Witness for C2: the idempotence theorem applied on the empty table with
two concrete payloads under message id "msg9". -/
theorem storeBills_upsert_idempotent_witness :
    ((storeBills "u1" [⟨⟨.electricity, 105, "2026-01-15T00:00:00.000Z", 95/100⟩, "msg9"⟩] 2000
        (storeBills "u1" [⟨⟨.electricity, 100, "2026-01-15T00:00:00.000Z", 9/10⟩, "msg9"⟩] 1000
          emptyBillsDB)).rows.filter
        fun r => r.gmail_message_id == "msg9") =
      [⟨1, "u1", .electricity, 105, "2026-01-15T00:00:00.000Z", "msg9", 95/100, 2000⟩] :=
  (storeBills_upsert_idempotent emptyBillsDB "u1" "msg9"
    ⟨.electricity, 100, "2026-01-15T00:00:00.000Z", 9/10⟩
    ⟨.electricity, 105, "2026-01-15T00:00:00.000Z", 95/100⟩ 1000 2000
    (by decide) (by intro r hr; simp [emptyBillsDB] at hr)).1

/-- Mapping a row transformer over the table commutes with per-user
filtering and key projection, provided the transformer changes neither the
filter's verdict nor the projected keys. -/
theorem map_filter_invariant {α β : Type} (f : α → α) (p : α → Bool) (g : α → β)
    (hp : ∀ a, p (f a) = p a) (hg : ∀ a, g (f a) = g a) :
    ∀ l : List α, ((l.map f).filter p).map g = (l.filter p).map g := by
  intro l
  induction l with
  | nil => rfl
  | cons a t ih =>
    simp only [List.map_cons, List.filter_cons, hp a]
    cases hpa : p a <;> simp [hg, ih]

/-- Keys of a different user's rows survive one upsert unchanged: the upsert
for `u` neither creates nor deletes a row of `v` and never re-keys one
(though it may overwrite a colliding row's bill columns). -/
theorem userRows_upsertBill_other {v u : String} (hvu : v ≠ u) (b : ParsedBill)
    (m : String) (ts : Int) (db : BillsDB) :
    ((userRows v (upsertBill u b m ts db)).map fun r => (r.id, r.user_id, r.gmail_message_id)) =
      (userRows v db).map fun r => (r.id, r.user_id, r.gmail_message_id) := by
  unfold upsertBill
  split
  · refine map_filter_invariant _ _ _ ?_ ?_ db.rows
    · intro a
      by_cases hm : a.gmail_message_id = m <;> simp [hm]
    · intro a
      by_cases hm : a.gmail_message_id = m <;> simp [hm]
  · simp only [userRows, List.filter_append]
    have : ((([⟨db.nextId, u, b.type, b.amount, b.issue_date, m, b.confidence, ts⟩] :
        List BillRow).filter fun r => r.user_id == v)) = [] := by
      simp [Ne.symm hvu]
    simp only [userRows] at this ⊢
    rw [this, List.append_nil]

theorem userRows_upsertMany_other {v u : String} (hvu : v ≠ u)
    (bills : List BillInput) (now : Int) (db : BillsDB) :
    ((userRows v (upsertMany u bills now db)).map fun r => (r.id, r.user_id, r.gmail_message_id)) =
      (userRows v db).map fun r => (r.id, r.user_id, r.gmail_message_id) := by
  induction bills generalizing db with
  | nil => rfl
  | cons bb bs ih =>
    calc ((userRows v (upsertMany u (bb :: bs) now db)).map
            fun r => (r.id, r.user_id, r.gmail_message_id))
        = (userRows v (upsertBill u bb.bill bb.gmail_message_id now db)).map
            (fun r => (r.id, r.user_id, r.gmail_message_id)) := ih _
      _ = (userRows v db).map (fun r => (r.id, r.user_id, r.gmail_message_id)) :=
          userRows_upsertBill_other hvu bb.bill bb.gmail_message_id now db

/-- Pruning user `u` leaves a different user's rows exactly as they were. -/
theorem userRows_prune_other {v u : String} (hvu : v ≠ u) (db : BillsDB)
    (hwf : BillsWF db) :
    userRows v (prune u db) = userRows v db := by
  unfold prune
  split
  · rename_i hc
    show (db.rows.filter fun r => !((pruneDoomed u db).contains r.id)).filter
        (fun r => r.user_id == v) = _
    rw [List.filter_filter]
    apply List.filter_congr
    intro r hr
    by_cases hpv : r.user_id = v
    · cases hq : (pruneDoomed u db).contains r.id
      · simp [hpv, hq]
      · exfalso
        have hrT := mem_take_of_doomed hwf hr hq
        have hrU : r ∈ userRows u db :=
          (List.mergeSort_perm (userRows u db) oldestLe).mem_iff.mp
            (List.mem_of_mem_take hrT)
        have hru : r.user_id = u := by
          have := List.of_mem_filter hrU
          simpa using this
        exact hvu (hpv ▸ hru)
    · simp [hpv]
  · rfl

/-- Counterexample for C7: with user A holding message id "msg1", an upsert
by user B under the same message id does not give B a row — instead it
overwrites A's row's bill columns in place (A's row changes from the
electricity bill ingested at 1000 to B's water bill ingested at 2000).
The uniqueness of `gmail_message_id` is global to the table, not scoped per
user partition. -/
theorem storeBills_cross_user_overwrite_counterexample :
    userRows "userB"
        (storeBills "userB" [⟨⟨.water, 50, "2026-01-10T00:00:00.000Z", 1⟩, "msg1"⟩] 2000
          (storeBills "userA" [⟨⟨.electricity, 100, "2026-01-15T00:00:00.000Z", 1⟩, "msg1"⟩]
            1000 emptyBillsDB)) = [] ∧
    userRows "userA"
        (storeBills "userA" [⟨⟨.electricity, 100, "2026-01-15T00:00:00.000Z", 1⟩, "msg1"⟩]
          1000 emptyBillsDB) =
      [⟨1, "userA", .electricity, 100, "2026-01-15T00:00:00.000Z", "msg1", 1, 1000⟩] ∧
    userRows "userA"
        (storeBills "userB" [⟨⟨.water, 50, "2026-01-10T00:00:00.000Z", 1⟩, "msg1"⟩] 2000
          (storeBills "userA" [⟨⟨.electricity, 100, "2026-01-15T00:00:00.000Z", 1⟩, "msg1"⟩]
            1000 emptyBillsDB)) =
      [⟨1, "userA", .water, 50, "2026-01-10T00:00:00.000Z", "msg1", 1, 2000⟩] := by
  decide

/-- C7 as amended: message-id uniqueness is global to the table rather than
per user partition — after any `storeBills` call no two rows (of any users)
share a `gmail_message_id` — and a call for user `u` never creates,
deletes, or re-keys a row belonging to a different user `v` (its keys and
ownership are exactly preserved), although a collision may overwrite such a
row's bill columns, as the counterexample shows. -/
theorem storeBills_global_uniqueness
    (db : BillsDB) (hwf : BillsWF db) (u : String) (bills : List BillInput) (now : Int) :
    (∀ r1 ∈ (storeBills u bills now db).rows, ∀ r2 ∈ (storeBills u bills now db).rows,
      r1.gmail_message_id = r2.gmail_message_id → r1 = r2) ∧
    (∀ v, v ≠ u →
      ((userRows v (storeBills u bills now db)).map
          fun r => (r.id, r.user_id, r.gmail_message_id)) =
        (userRows v db).map fun r => (r.id, r.user_id, r.gmail_message_id)) := by
  constructor
  · intro r1 h1 r2 h2 hm
    exact List.inj_on_of_nodup_map (billsWF_storeBills hwf u bills now).gmail_nodup h1 h2 hm
  · intro v hvu
    have hmid : BillsWF (upsertMany u bills now db) := billsWF_upsertMany hwf u bills now
    calc ((userRows v (storeBills u bills now db)).map
            fun r => (r.id, r.user_id, r.gmail_message_id))
        = (userRows v (upsertMany u bills now db)).map
            (fun r => (r.id, r.user_id, r.gmail_message_id)) := by
          rw [show storeBills u bills now db = prune u (upsertMany u bills now db) from rfl,
            userRows_prune_other hvu _ hmid]
      _ = (userRows v db).map (fun r => (r.id, r.user_id, r.gmail_message_id)) :=
          userRows_upsertMany_other hvu bills now db

/-- Witness for the amended C7: applied to the concrete two-user collision
scenario, showing user "other" is untouched by user B's call. -/
theorem storeBills_global_uniqueness_witness :
    ((userRows "other"
        (storeBills "userB" [⟨⟨.water, 50, "2026-01-10T00:00:00.000Z", 1⟩, "msg1"⟩] 2000
          (storeBills "userA" [⟨⟨.electricity, 100, "2026-01-15T00:00:00.000Z", 1⟩, "msg1"⟩]
            1000 emptyBillsDB))).map fun r => (r.id, r.user_id, r.gmail_message_id)) =
      (userRows "other"
        (storeBills "userA" [⟨⟨.electricity, 100, "2026-01-15T00:00:00.000Z", 1⟩, "msg1"⟩]
          1000 emptyBillsDB)).map fun r => (r.id, r.user_id, r.gmail_message_id) :=
  (storeBills_global_uniqueness
    (storeBills "userA" [⟨⟨.electricity, 100, "2026-01-15T00:00:00.000Z", 1⟩, "msg1"⟩]
      1000 emptyBillsDB)
    (billsWF_storeBills billsWF_empty "userA" _ 1000)
    "userB" [⟨⟨.water, 50, "2026-01-10T00:00:00.000Z", 1⟩, "msg1"⟩] 2000).2
    "other" (by decide)

/-! ## durable-objects/oauthTokens.ts -/

/-- One row of the `tokens` table (`initializeTables` in
`src/durable-objects/oauthTokens.ts`). -/
structure TokenRow where
  user_id : String
  access_token : String
  refresh_token : String
  expires_at : Int
deriving DecidableEq, Repr

/-- The `TokenData` interface returned to callers. -/
structure TokenData where
  accessToken : String
  refreshToken : String
  expiresAt : Int
deriving DecidableEq, Repr

/-- Outcome of the provider call `POST https://oauth2.googleapis.com/token`
as observed by `refreshIfNeeded`: a 2xx response with the parsed JSON body
(`access_token`, `expires_in` seconds, optional rotated `refresh_token`),
or a non-2xx response (`!tokenResponse.ok`) with its status. -/
inductive ProviderResult where
  | ok (access_token : String) (expires_in : Int) (refresh_token : Option String)
  | httpError (status : Nat)
deriving DecidableEq, Repr

/-- The handler's HTTP-level answer: 404 when no row exists, 200 with the
token data and the `refreshed` flag, or the provider's non-2xx status with
the "Token refresh failed" error body. -/
inductive RefreshResponse where
  | notFound
  | ok (data : TokenData) (refreshed : Bool)
  | refreshFailed (status : Nat)
deriving DecidableEq, Repr

/-- Full effect of one `refreshIfNeeded` call: the response, the resulting
stored row, and whether the provider endpoint was called. -/
structure RefreshStep where
  response : RefreshResponse
  stored : Option TokenRow
  networkCalled : Bool
deriving DecidableEq, Repr

/-- The 5-minute buffer (`bufferMs = 5 * 60 * 1000`). -/
def bufferMs : Int := 5 * 60 * 1000

/-- `refreshIfNeeded` from `src/durable-objects/oauthTokens.ts`. The row is
read, `needsRefresh := expires_at - now < bufferMs` is computed; when the
token does not need refreshing the stored data is returned unchanged with
`refreshed: false` and no network call; otherwise the provider is called:
a non-2xx answer is passed through as a failure without touching the table,
a 2xx answer updates the row (keeping the old refresh token when none was
issued, `newExpiresAt = Date.now() + expires_in * 1000` with the second
`Date.now()` reading modelled as `now2`). -/
def refreshIfNeeded (row? : Option TokenRow) (now now2 : Int)
    (provider : ProviderResult) : RefreshStep :=
  match row? with
  | none => ⟨.notFound, none, false⟩
  | some row =>
    if row.expires_at - now < bufferMs then
      match provider with
      | .httpError status => ⟨.refreshFailed status, some row, true⟩
      | .ok accessToken expiresIn rotated =>
        let newRefreshToken := rotated.getD row.refresh_token
        let newExpiresAt := now2 + expiresIn * 1000
        ⟨.ok ⟨accessToken, newRefreshToken, newExpiresAt⟩ true,
         some { row with access_token := accessToken,
                         refresh_token := newRefreshToken,
                         expires_at := newExpiresAt },
         true⟩
    else
      ⟨.ok ⟨row.access_token, row.refresh_token, row.expires_at⟩ false, some row, false⟩

/-- Unfolding equation of `refreshIfNeeded` on a present row. -/
theorem refreshIfNeeded_some (row : TokenRow) (now now2 : Int) (provider : ProviderResult) :
    refreshIfNeeded (some row) now now2 provider =
      if row.expires_at - now < bufferMs then
        match provider with
        | .httpError status => ⟨.refreshFailed status, some row, true⟩
        | .ok accessToken expiresIn rotated =>
          ⟨.ok ⟨accessToken, rotated.getD row.refresh_token, now2 + expiresIn * 1000⟩ true,
           some { row with access_token := accessToken,
                           refresh_token := rotated.getD row.refresh_token,
                           expires_at := now2 + expiresIn * 1000 },
           true⟩
      else ⟨.ok ⟨row.access_token, row.refresh_token, row.expires_at⟩ false, some row, false⟩ :=
  rfl

/-- C4: `refreshIfNeeded` calls the provider exactly when the stored
expiry is less than 5 minutes away; with at least 5 minutes remaining it
returns the stored record unchanged — same access token, refresh token and
expiry, `refreshed = false`, no network call, and no write to the table. -/
theorem refreshIfNeeded_threshold_spec :
    (∀ (row : TokenRow) (now now2 : Int) (provider : ProviderResult),
      (refreshIfNeeded (some row) now now2 provider).networkCalled = true ↔
        row.expires_at - now < 5 * 60 * 1000) ∧
    (∀ (row : TokenRow) (now now2 : Int) (provider : ProviderResult),
      5 * 60 * 1000 ≤ row.expires_at - now →
        refreshIfNeeded (some row) now now2 provider =
          ⟨.ok ⟨row.access_token, row.refresh_token, row.expires_at⟩ false,
           some row, false⟩) := by
  constructor
  · intro row now now2 provider
    rw [refreshIfNeeded_some]
    by_cases h : row.expires_at - now < bufferMs
    · rw [if_pos h]
      simp only [bufferMs] at h
      cases provider <;> simpa using h
    · rw [if_neg h]
      simp only [bufferMs] at h
      simpa using h
  · intro row now now2 provider h
    rw [refreshIfNeeded_some, if_neg (by simp only [bufferMs]; omega)]

/-- Witness for C4: with `expires_at = now + 4 minutes` the provider is
called; with `expires_at = now + 10 minutes` the stored record is returned
untouched. -/
theorem refreshIfNeeded_threshold_spec_witness :
    (refreshIfNeeded (some ⟨"u1", "acc", "ref", 1000000 + 4 * 60 * 1000⟩)
        1000000 1000000 (.ok "acc2" 3600 none)).networkCalled = true ∧
    refreshIfNeeded (some ⟨"u1", "acc", "ref", 1000000 + 10 * 60 * 1000⟩)
        1000000 1000000 (.ok "acc2" 3600 none) =
      ⟨.ok ⟨"acc", "ref", 1000000 + 10 * 60 * 1000⟩ false,
       some ⟨"u1", "acc", "ref", 1000000 + 10 * 60 * 1000⟩, false⟩ :=
  ⟨(refreshIfNeeded_threshold_spec.1 _ _ _ _).mpr (by decide),
   refreshIfNeeded_threshold_spec.2 _ _ _ _ (by decide)⟩

/-- C10: when a refresh is attempted and the provider answers non-2xx, the
handler fails with the provider's status and the stored row is exactly what
it was — access token, refresh token and expiry are not written. -/
theorem refreshIfNeeded_provider_error_no_write
    (row : TokenRow) (now now2 : Int) (status : Nat)
    (hneeds : row.expires_at - now < bufferMs) :
    refreshIfNeeded (some row) now now2 (.httpError status) =
      ⟨.refreshFailed status, some row, true⟩ := by
  rw [refreshIfNeeded_some, if_pos hneeds]

/-- Witness for C10: a concrete token 4 minutes from expiry and a 401 from
the provider leave the stored row untouched. -/
theorem refreshIfNeeded_provider_error_no_write_witness :
    refreshIfNeeded (some ⟨"u1", "acc", "ref", 1000000 + 4 * 60 * 1000⟩)
        1000000 1000000 (.httpError 401) =
      ⟨.refreshFailed 401, some ⟨"u1", "acc", "ref", 1000000 + 4 * 60 * 1000⟩, true⟩ :=
  refreshIfNeeded_provider_error_no_write
    ⟨"u1", "acc", "ref", 1000000 + 4 * 60 * 1000⟩ 1000000 1000000 401 (by decide)

/-! ## OAuthTokensDO.fetch dispatch and the workflow's Authorize step -/

/-- Status code of a `refreshIfNeeded` handler answer: 404 for a missing
row, 200 for a token (fresh or refreshed), the provider's status on a
failed refresh. -/
def refreshResponseStatus : RefreshResponse → Nat
  | .notFound => 404
  | .ok _ _ => 200
  | .refreshFailed status => status

/-- HTTP status answered by `OAuthTokensDO.fetch` (the
`switch (payload.action)` in `src/durable-objects/oauthTokens.ts`) for a
request whose JSON `action` field is the given string. The `store` and
`get` handlers' statuses are abstract parameters; the `refreshIfNeeded`
case delegates to the embedded handler; any other action string falls to
the `default` branch answering 400 "Unknown action". -/
def oauthFetchStatus (action : String) (storeStatus getStatus : Nat)
    (row? : Option TokenRow) (now now2 : Int) (provider : ProviderResult) : Nat :=
  if action == "store" then storeStatus
  else if action == "get" then getStatus
  else if action == "refreshIfNeeded" then
    refreshResponseStatus (refreshIfNeeded row? now now2 provider).response
  else 400

/-- JS `Response.ok`: status in the 2xx range. -/
def responseOk (status : Nat) : Bool := 200 ≤ status && status < 300

/-- Result of the workflow's step 1 as seen by the orchestrator. -/
inductive AuthorizeResult where
  | token
  | failure (message : String)
deriving DecidableEq, Repr

/-- `refreshTokenIfNeeded` from the workflow source (step 1 of
`executeBillScanWorkflow`): it POSTs `{ action: "getAccessToken", userId }`
to the user's OAuthTokensDO and throws `Failed to get access token` unless
`response.ok`. -/
def refreshTokenIfNeeded (storeStatus getStatus : Nat)
    (row? : Option TokenRow) (now now2 : Int) (provider : ProviderResult) : AuthorizeResult :=
  if responseOk (oauthFetchStatus "getAccessToken" storeStatus getStatus
      row? now now2 provider) then
    .token
  else
    .failure "Failed to get access token"

/-- C5 (the code contradicts the claim): the workflow's Authorize step
always fails — for every token-store state, including a user whose stored
token is not near expiry, the Durable Object's switch has no
"getAccessToken" case, answers 400 "Unknown action", and the workflow
throws — whereas dispatching the implemented "refreshIfNeeded" action on a
token with at least 5 minutes remaining would answer 200. -/
theorem workflow_authorize_always_fails :
    (∀ (storeStatus getStatus : Nat) (row? : Option TokenRow) (now now2 : Int)
        (provider : ProviderResult),
      refreshTokenIfNeeded storeStatus getStatus row? now now2 provider =
        .failure "Failed to get access token") ∧
    (∀ (storeStatus getStatus : Nat) (row : TokenRow) (now now2 : Int)
        (provider : ProviderResult),
      5 * 60 * 1000 ≤ row.expires_at - now →
        oauthFetchStatus "refreshIfNeeded" storeStatus getStatus
          (some row) now now2 provider = 200) := by
  constructor
  · intro storeStatus getStatus row? now now2 provider
    simp [refreshTokenIfNeeded, oauthFetchStatus, responseOk]
  · intro storeStatus getStatus row now now2 provider h
    simp only [oauthFetchStatus]
    rw [if_neg (by decide), if_neg (by decide), if_pos (by decide)]
    rw [refreshIfNeeded_some, if_neg (by simp only [bufferMs]; omega)]
    rfl

/-- Witness for C5: a concrete user whose stored token has 10 minutes of
validity still fails the workflow's Authorize step, while the implemented
refresh action would have answered 200 on the same state. -/
theorem workflow_authorize_always_fails_witness :
    refreshTokenIfNeeded 200 200 (some ⟨"u1", "acc", "ref", 1000000 + 10 * 60 * 1000⟩)
        1000000 1000000 (.ok "acc2" 3600 none) =
      .failure "Failed to get access token" ∧
    oauthFetchStatus "refreshIfNeeded" 200 200
        (some ⟨"u1", "acc", "ref", 1000000 + 10 * 60 * 1000⟩)
        1000000 1000000 (.ok "acc2" 3600 none) = 200 :=
  ⟨workflow_authorize_always_fails.1 200 200 _ 1000000 1000000 _,
   workflow_authorize_always_fails.2 200 200 _ 1000000 1000000 _ (by decide)⟩

/-! ## services/billParser.ts — parseBillWithGemini -/

/-- `CONFIDENCE_THRESHOLD = 0.7` from `src/services/billParser.ts`. -/
def CONFIDENCE_THRESHOLD : ℚ := 7/10

/-- `MAX_RETRIES = 1` from `src/services/billParser.ts`. -/
def MAX_RETRIES : Nat := 1

/-- The fixed `setTimeout(resolve, 1000)` delay before a retry. -/
def RETRY_DELAY_MS : Nat := 1000

/-- Observable outcome of one `generateObject` call: a schema-valid parsed
bill, or a thrown error (network failure, refusal, schema violation). -/
inductive AttemptOutcome where
  | object (bill : ParsedBill)
  | thrown (message : String)

/-- Reason an attempt counts as failed. -/
inductive AttemptFailure where
  | lowConfidence (confidence : ℚ)
  | thrown (message : String)
deriving DecidableEq, Repr

/-- One loop iteration's body up to the catch: a returned object whose
`confidence < CONFIDENCE_THRESHOLD` raises the low-confidence
`BillParserError`, which the catch turns into an attempt failure; an
accepted object is returned. -/
def attemptResult : AttemptOutcome → Except AttemptFailure ParsedBill
  | .object b =>
    if b.confidence < CONFIDENCE_THRESHOLD then .error (.lowConfidence b.confidence)
    else .ok b
  | .thrown message => .error (.thrown message)

/-- The `BillParserError` raised after the loop, wrapping the last failure. -/
structure BillParserError where
  message : String
  cause : Option AttemptFailure
deriving DecidableEq, Repr

/-- What one `parseBillWithGemini` call did: its result, how many attempts
ran, and the retry sleeps (in ms) it performed. -/
structure ParseRun where
  result : Except BillParserError ParsedBill
  attemptsUsed : Nat
  delays : List Nat
deriving Repr

/-- The retry loop `for (attempt = 0; attempt <= MAX_RETRIES; attempt++)`
of `parseBillWithGemini`, with `remaining = MAX_RETRIES + 1 - attempt`
iterations left and the `lastError` accumulator; after the loop the
function throws `Failed to parse bill after ${MAX_RETRIES + 1} attempts`
wrapping the last failure. A sleep of `RETRY_DELAY_MS` happens only when
`attempt < MAX_RETRIES`. -/
def parseLoop (attempts : Nat → AttemptOutcome) :
    Option AttemptFailure → Nat → Nat → ParseRun
  | lastError, _, 0 =>
    ⟨.error ⟨"Failed to parse bill after " ++ toString (MAX_RETRIES + 1) ++ " attempts",
      lastError⟩, 0, []⟩
  | _, attempt, remaining + 1 =>
    match attemptResult (attempts attempt) with
    | .ok bill => ⟨.ok bill, 1, []⟩
    | .error e =>
      let rest := parseLoop attempts (some e) (attempt + 1) remaining
      ⟨rest.result, rest.attemptsUsed + 1,
       if attempt < MAX_RETRIES then RETRY_DELAY_MS :: rest.delays else rest.delays⟩

/-- `parseBillWithGemini` as a function of the outcomes the model produces
on each attempt. -/
def parseBillWithGemini (attempts : Nat → AttemptOutcome) : ParseRun :=
  parseLoop attempts none 0 (MAX_RETRIES + 1)

/-- Unfolding equation of the confidence gate on a returned object. -/
theorem attemptResult_object (b : ParsedBill) :
    attemptResult (.object b) =
      if b.confidence < CONFIDENCE_THRESHOLD then
        Except.error (.lowConfidence b.confidence)
      else .ok b :=
  rfl

/-- C3: the extractor accepts a model result iff its confidence is at least
0.7; a passing first attempt returns immediately (one attempt, no delay); a
failing first attempt sleeps the fixed 1000 ms once and retries exactly
once, succeeding iff the second attempt passes the gate; when both attempts
fail it raises the `Failed to parse bill after 2 attempts` error wrapping
the second attempt's failure reason. -/
theorem parseBillWithGemini_retry_spec :
    (∀ b : ParsedBill, (attemptResult (.object b) = .ok b ↔ 7/10 ≤ b.confidence) ∧
      (attemptResult (.object b) = .error (.lowConfidence b.confidence) ↔
        b.confidence < 7/10)) ∧
    (∀ (attempts : Nat → AttemptOutcome) (b : ParsedBill),
      attemptResult (attempts 0) = .ok b →
        parseBillWithGemini attempts = ⟨.ok b, 1, []⟩) ∧
    (∀ (attempts : Nat → AttemptOutcome) (e : AttemptFailure) (b : ParsedBill),
      attemptResult (attempts 0) = .error e →
      attemptResult (attempts 1) = .ok b →
        parseBillWithGemini attempts = ⟨.ok b, 2, [RETRY_DELAY_MS]⟩) ∧
    (∀ (attempts : Nat → AttemptOutcome) (e e2 : AttemptFailure),
      attemptResult (attempts 0) = .error e →
      attemptResult (attempts 1) = .error e2 →
        parseBillWithGemini attempts =
          ⟨.error ⟨"Failed to parse bill after 2 attempts", some e2⟩, 2,
           [RETRY_DELAY_MS]⟩) := by
  refine ⟨?_, ?_, ?_, ?_⟩
  · intro b
    rw [attemptResult_object]
    simp only [CONFIDENCE_THRESHOLD]
    by_cases h : b.confidence < 7/10
    · rw [if_pos h]
      constructor
      · constructor
        · intro hcon
          exact absurd hcon (by simp)
        · intro hle
          exact absurd h (not_lt.mpr hle)
      · constructor
        · intro _
          exact h
        · intro _
          rfl
    · rw [if_neg h]
      constructor
      · constructor
        · intro _
          exact not_lt.mp h
        · intro _
          rfl
      · constructor
        · intro hcon
          exact absurd hcon (by simp)
        · intro hlt
          exact absurd hlt h
  · intro attempts b h
    unfold parseBillWithGemini MAX_RETRIES
    unfold parseLoop
    rw [h]
  · intro attempts e b h0 h1
    unfold parseBillWithGemini MAX_RETRIES
    unfold parseLoop
    rw [h0]
    unfold parseLoop
    rw [h1]
    rfl
  · intro attempts e e2 h0 h1
    unfold parseBillWithGemini MAX_RETRIES
    unfold parseLoop
    rw [h0]
    unfold parseLoop
    rw [h1]
    unfold parseLoop
    rfl

/-- Witness for C3: a first attempt with confidence 0.69 is rejected and
retried after the fixed delay, and a second attempt with confidence 0.70 is
accepted, so the call returns the second bill after two attempts and one
1000 ms sleep. -/
theorem parseBillWithGemini_retry_spec_witness :
    parseBillWithGemini (fun n =>
        if n = 0 then .object ⟨.electricity, 100, "2026-01-15T00:00:00.000Z", 69/100⟩
        else .object ⟨.electricity, 100, "2026-01-15T00:00:00.000Z", 70/100⟩) =
      ⟨.ok ⟨.electricity, 100, "2026-01-15T00:00:00.000Z", 70/100⟩, 2, [RETRY_DELAY_MS]⟩ :=
  parseBillWithGemini_retry_spec.2.2.1 _ (.lowConfidence (69/100)) _
    (by norm_num [attemptResult, CONFIDENCE_THRESHOLD])
    (by norm_num [attemptResult, CONFIDENCE_THRESHOLD])

/-! ## workflow Step 5 — subject-hint plumbing into parseBillsInParallel -/

/-- One element of `pdfs` after Step 4: a downloaded attachment's message
id and the classifier's verdict on that message's subject. -/
structure PdfDownload where
  messageId : String
  subjectHint : Option BillType
deriving DecidableEq, Repr

/-- Step 5's `subjectHints`:
`pdfs.map((pdf) => pdf.subjectHint).filter((hint) => hint !== null)`. -/
def workflowSubjectHints (pdfs : List PdfDownload) : List BillType :=
  (pdfs.map (·.subjectHint)).filterMap id

/-- The second argument of the `parseBillsInParallel` call:
`subjectHints.length > 0 ? subjectHints : undefined`. -/
def workflowSubjectHintsArg (pdfs : List PdfDownload) : Option (List BillType) :=
  if 0 < (workflowSubjectHints pdfs).length then some (workflowSubjectHints pdfs)
  else none

/-- The hint `parseBillsInParallel` passes to `parseBillWithGemini` for the
attachment at `index`: `subjectHints?.[index]`. -/
def hintForIndex (pdfs : List PdfDownload) (index : Nat) : Option BillType :=
  (workflowSubjectHintsArg pdfs).bind fun hints => hints[index]?

/-- C6 (the code contradicts the claim): filtering the nulls out of the
hint list misaligns it with the attachment list. With a first message the
classifier did not match and a second it classified as electricity, the
first PDF is extracted with hint electricity (the second message's
classification) and the second PDF with no hint; so it is not the case
that every PDF receives its own message's classifier result. -/
theorem workflow_subject_hint_misalignment :
    hintForIndex [⟨"msg1", none⟩, ⟨"msg2", some .electricity⟩] 0 = some .electricity ∧
    hintForIndex [⟨"msg1", none⟩, ⟨"msg2", some .electricity⟩] 1 = none ∧
    ([⟨"msg1", none⟩, ⟨"msg2", some .electricity⟩] : List PdfDownload).map
        (·.subjectHint) = [none, some .electricity] ∧
    ¬ (∀ (pdfs : List PdfDownload) (i : Nat) (hi : i < pdfs.length),
        hintForIndex pdfs i = (pdfs.get ⟨i, hi⟩).subjectHint) := by
  refine ⟨by decide, by decide, by decide, ?_⟩
  intro h
  have := h [⟨"msg1", none⟩, ⟨"msg2", some .electricity⟩] 0 (by decide)
  revert this
  decide

/-! ## services/discord.ts — formatBillSummary -/

/-- The `BillWithMessageId` used by the formatter. The interface is
imported from `../types/bills` but its declaration is not among the source
files; its shape is reconstructed from its uses (a `ParsedBill` joined with
the `gmail_message_id` added by the workflow's `storeBills` mapping). -/
structure BillWithMessageId where
  type : BillType
  amount : ℚ
  issue_date : String
  confidence : ℚ
  gmail_message_id : String
deriving DecidableEq, Repr

/-- Numeric value of a decimal digit character. -/
def digitVal (c : Char) : Int := Int.ofNat c.toNat - 48

/-- Decimal value of a digit run. -/
def natFrom (cs : List Char) : Int := cs.foldl (fun a c => a * 10 + digitVal c) 0

/-- Days from 1970-01-01 of a proleptic-Gregorian civil date (the standard
era-based algorithm, as used by JS `Date`). -/
def daysFromCivil (y m d : Int) : Int :=
  let yAdj := if m ≤ 2 then y - 1 else y
  let era := (if 0 ≤ yAdj then yAdj else yAdj - 399) / 400
  let yoe := yAdj - era * 400
  let mp := (m + 9) % 12
  let doy := (153 * mp + 2) / 5 + d - 1
  let doe := yoe * 365 + yoe / 4 - yoe / 100 + doy
  era * 146097 + doe - 719468

/-- Epoch milliseconds of a canonical ISO-8601 UTC string
`YYYY-MM-DDTHH:mm:ss.sssZ` — the time value JS `new Date(iso)` assigns to
the datetime strings the bill schema mandates. -/
def dateValue (iso : String) : Int :=
  let cs := iso.data
  let y := natFrom (cs.take 4)
  let mo := natFrom ((cs.drop 5).take 2)
  let d := natFrom ((cs.drop 8).take 2)
  let h := natFrom ((cs.drop 11).take 2)
  let mi := natFrom ((cs.drop 14).take 2)
  let sec := natFrom ((cs.drop 17).take 2)
  let ms := natFrom ((cs.drop 20).take 3)
  (((daysFromCivil y mo d * 24 + h) * 60 + mi) * 60 + sec) * 1000 + ms

/-- Inverse of `daysFromCivil`: the civil date of an epoch day count. -/
def civilFromDays (z : Int) : Int × Int × Int :=
  let z2 := z + 719468
  let era := (if 0 ≤ z2 then z2 else z2 - 146096) / 146097
  let doe := z2 - era * 146097
  let yoe := (doe - doe / 1460 + doe / 36524 - doe / 146096) / 365
  let y := yoe + era * 400
  let doy := doe - (365 * yoe + yoe / 4 - yoe / 100)
  let mp := (5 * doy + 2) / 153
  let d := doy - (153 * mp + 2) / 5 + 1
  let m := mp + (if mp < 10 then 3 else -9)
  (y + (if m ≤ 2 then 1 else 0), m, d)

/-- Abbreviated English month names as rendered by `toLocaleDateString`. -/
def monthName (m : Int) : String :=
  if m = 1 then "Jan" else if m = 2 then "Feb" else if m = 3 then "Mar"
  else if m = 4 then "Apr" else if m = 5 then "May" else if m = 6 then "Jun"
  else if m = 7 then "Jul" else if m = 8 then "Aug" else if m = 9 then "Sep"
  else if m = 10 then "Oct" else if m = 11 then "Nov" else "Dec"

/-- `formatDate` from `src/services/discord.ts`:
`new Date(iso).toLocaleDateString('en-AU', { month: 'short', day: 'numeric' })`,
which in the worker's UTC locale renders as day then abbreviated month,
e.g. "15 Jan". -/
def formatDate (iso : String) : String :=
  let c := civilFromDays (dateValue iso / 86400000)
  toString c.2.2 ++ " " ++ monthName c.2.1

/-- JS `amount.toFixed(2)` for the nonnegative exact-cent amounts in play:
round to cents and render with exactly two decimals. -/
def toFixed2 (q : ℚ) : String :=
  toString (⌊q * 100 + 1/2⌋ / 100) ++ "." ++
    (if ⌊q * 100 + 1/2⌋ % 100 < 10 then "0" else "") ++ toString (⌊q * 100 + 1/2⌋ % 100)

/-- Read a key of the `billsByType` record (JS object property access). -/
def recordGet : List (BillType × BillWithMessageId) → BillType → Option BillWithMessageId
  | [], _ => none
  | (t', b') :: rest, t => if t' = t then some b' else recordGet rest t

/-- Write a key of the `billsByType` record: JS assignment keeps an existing
key's insertion position and appends a new key at the end. -/
def recordSet : List (BillType × BillWithMessageId) → BillType → BillWithMessageId →
    List (BillType × BillWithMessageId)
  | [], t, b => [(t, b)]
  | (t', b') :: rest, t, b =>
    if t' = t then (t', b) :: rest else (t', b') :: recordSet rest t b

/-- Body of the grouping `forEach` of `formatBillSummary`: keep the bill as
its type's representative unless one with a later-or-equal `issue_date` is
already recorded (`!existing || new Date(bill.issue_date) >
new Date(existing.issue_date)`). -/
def groupStep (acc : List (BillType × BillWithMessageId)) (bill : BillWithMessageId) :
    List (BillType × BillWithMessageId) :=
  match recordGet acc bill.type with
  | none => recordSet acc bill.type bill
  | some existing =>
    if dateValue existing.issue_date < dateValue bill.issue_date then
      recordSet acc bill.type bill
    else acc

/-- The grouping loop of `formatBillSummary`. -/
def billsByType (bills : List BillWithMessageId) : List (BillType × BillWithMessageId) :=
  bills.foldl groupStep []

/-- The `emojiMap` of `formatBillSummary`. -/
def emojiFor : BillType → String
  | .electricity => "⚡"
  | .hot_water => "🔥"
  | .water => "💧"
  | .internet => "🌐"

/-- The `typeLabels` of `formatBillSummary`. -/
def labelFor : BillType → String
  | .electricity => "Electricity"
  | .hot_water => "Hot Water"
  | .water => "Water"
  | .internet => "Internet"

/-- The fixed display order `orderedTypes`. -/
def orderedTypes : List BillType := [.electricity, .hot_water, .water, .internet]

/-- One rendered bill line of the summary. -/
def summaryLine (t : BillType) (bill : BillWithMessageId) : String :=
  emojiFor t ++ " " ++ labelFor t ++ ": $" ++ toFixed2 bill.amount ++ " (" ++
    formatDate bill.issue_date ++ ") • [View Email](https://mail.google.com/mail/u/0/#inbox/" ++
    bill.gmail_message_id ++ ")"

/-- The total of `formatBillSummary`:
`Object.values(billsByType).reduce((sum, bill) => sum + bill.amount, 0)` —
the sum of the one-per-type representatives' amounts, not of all inputs. -/
def summaryTotal (bills : List BillWithMessageId) : ℚ :=
  ((billsByType bills).map fun p => p.2.amount).sum

/-- `formatBillSummary` from `src/services/discord.ts`. -/
def formatBillSummary (bills : List BillWithMessageId) : String :=
  if bills.length = 0 then "📊 No bills found in the last 30 days."
  else
    String.intercalate "\n"
      (["📊 **Bills for last 30 days:**\n"] ++
        (orderedTypes.filterMap fun t =>
          (recordGet (billsByType bills) t).map fun bill => summaryLine t bill) ++
        ["\n**Total:** $" ++ toFixed2 (summaryTotal bills)])

theorem recordGet_recordSet (acc : List (BillType × BillWithMessageId))
    (t : BillType) (b : BillWithMessageId) (t' : BillType) :
    recordGet (recordSet acc t b) t' = if t = t' then some b else recordGet acc t' := by
  induction acc with
  | nil =>
    by_cases h : t = t' <;> simp [recordSet, recordGet, h]
  | cons p rest ih =>
    obtain ⟨tp, bp⟩ := p
    by_cases hp : tp = t
    · subst hp
      by_cases h' : tp = t' <;> simp [recordSet, recordGet, h']
    · by_cases h' : tp = t'
      · subst h'
        have : ¬ (t = tp) := fun h => hp h.symm
        simp [recordSet, recordGet, hp, this]
      · simp [recordSet, recordGet, hp, h', ih]

theorem recordGet_eq_none_iff (acc : List (BillType × BillWithMessageId)) (t : BillType) :
    recordGet acc t = none ↔ ∀ p ∈ acc, p.1 ≠ t := by
  induction acc with
  | nil => simp [recordGet]
  | cons p rest ih =>
    obtain ⟨tp, bp⟩ := p
    by_cases hp : tp = t
    · subst hp
      simp [recordGet]
    · simp [recordGet, hp, ih]

theorem recordGet_some_split {acc : List (BillType × BillWithMessageId)}
    {t : BillType} {b : BillWithMessageId} (h : recordGet acc t = some b) :
    ∃ l1 l2, acc = l1 ++ (t, b) :: l2 ∧ ∀ p ∈ l1, p.1 ≠ t := by
  induction acc with
  | nil => simp [recordGet] at h
  | cons p rest ih =>
    obtain ⟨tp, bp⟩ := p
    by_cases hp : tp = t
    · subst hp
      simp [recordGet] at h
      exact ⟨[], rest, by simp [h], by simp⟩
    · simp only [recordGet, if_neg hp] at h
      obtain ⟨l1, l2, heq, hl1⟩ := ih h
      exact ⟨(tp, bp) :: l1, l2, by simp [heq], by
        intro p hp'
        rcases List.mem_cons.mp hp' with h' | h'
        · subst h'; exact hp
        · exact hl1 p h'⟩

theorem recordGet_middle_ne {t t' : BillType} (hne : t ≠ t') (b : BillWithMessageId) :
    ∀ l1 l2, recordGet (l1 ++ (t, b) :: l2) t' = recordGet (l1 ++ l2) t' := by
  intro l1 l2
  induction l1 with
  | nil => simp [recordGet, hne]
  | cons p rest ih =>
    obtain ⟨tp, bp⟩ := p
    by_cases hp : tp = t' <;> simp [recordGet, hp, ih]

/-- Keys after a `recordSet` on a present key are unchanged. -/
theorem keys_recordSet_mem {acc : List (BillType × BillWithMessageId)}
    {t : BillType} (b : BillWithMessageId) (h : ¬ recordGet acc t = none) :
    (recordSet acc t b).map Prod.fst = acc.map Prod.fst := by
  induction acc with
  | nil => simp [recordGet] at h
  | cons p rest ih =>
    obtain ⟨tp, bp⟩ := p
    by_cases hp : tp = t
    · subst hp
      simp [recordSet]
    · simp only [recordGet, if_neg hp] at h
      simp [recordSet, hp, ih h]

/-- Keys after a `recordSet` on an absent key: the key is appended. -/
theorem keys_recordSet_not_mem {acc : List (BillType × BillWithMessageId)}
    {t : BillType} (b : BillWithMessageId) (h : recordGet acc t = none) :
    (recordSet acc t b).map Prod.fst = acc.map Prod.fst ++ [t] := by
  induction acc with
  | nil => simp [recordSet]
  | cons p rest ih =>
    obtain ⟨tp, bp⟩ := p
    by_cases hp : tp = t
    · subst hp
      simp [recordGet] at h
    · simp only [recordGet, if_neg hp] at h
      simp [recordSet, hp, ih h]

/-- The record built by the grouping loop always has pairwise-distinct
keys. -/
theorem groupStep_keysNodup {acc : List (BillType × BillWithMessageId)}
    (h : (acc.map Prod.fst).Nodup) (bill : BillWithMessageId) :
    ((groupStep acc bill).map Prod.fst).Nodup := by
  unfold groupStep
  cases hg : recordGet acc bill.type with
  | none =>
    rw [keys_recordSet_not_mem bill hg]
    rw [List.nodup_append]
    refine ⟨h, List.nodup_singleton _, ?_⟩
    intro k hk
    simp only [List.mem_singleton]
    intro hkt
    subst hkt
    have := (recordGet_eq_none_iff acc bill.type).mp hg
    simp only [List.mem_map] at hk
    obtain ⟨p, hp, hpk⟩ := hk
    exact this p hp hpk
  | some existing =>
    dsimp only
    by_cases hlt : dateValue existing.issue_date < dateValue bill.issue_date
    · rw [if_pos hlt, keys_recordSet_mem bill (by rw [hg]; simp)]
      exact h
    · rw [if_neg hlt]
      exact h

theorem billsByType_keysNodup (bills : List BillWithMessageId) :
    ((billsByType bills).map Prod.fst).Nodup := by
  suffices h : ∀ (l : List BillWithMessageId) (acc : List (BillType × BillWithMessageId)),
      (acc.map Prod.fst).Nodup → ((l.foldl groupStep acc).map Prod.fst).Nodup by
    exact h bills [] (by simp)
  intro l
  induction l with
  | nil => exact fun acc h => h
  | cons bill rest ih =>
    intro acc h
    exact ih (groupStep acc bill) (groupStep_keysNodup h bill)

/-- Invariant of the grouping loop relative to the bills already seen:
every recorded representative is a seen bill of its key's type with the
maximal issue date among seen bills of that type, and a key is absent
exactly when no seen bill has that type. -/
def GroupInv (acc : List (BillType × BillWithMessageId))
    (seen : List BillWithMessageId) : Prop :=
  (∀ t b, recordGet acc t = some b →
    b ∈ seen ∧ b.type = t ∧
    ∀ c ∈ seen, c.type = t → dateValue c.issue_date ≤ dateValue b.issue_date) ∧
  (∀ t, recordGet acc t = none → ∀ c ∈ seen, c.type ≠ t)

theorem groupStep_inv {acc : List (BillType × BillWithMessageId)}
    {seen : List BillWithMessageId} (h : GroupInv acc seen) (bill : BillWithMessageId) :
    GroupInv (groupStep acc bill) (seen ++ [bill]) := by
  obtain ⟨hsome, hnone⟩ := h
  unfold groupStep
  cases hg : recordGet acc bill.type with
  | none =>
    constructor
    · intro t b hget
      rw [recordGet_recordSet] at hget
      by_cases ht : bill.type = t
      · rw [if_pos ht] at hget
        obtain rfl : bill = b := by simpa using hget
        refine ⟨by simp, ht, ?_⟩
        intro c hc hct
        rcases List.mem_append.mp hc with hc | hc
        · exact absurd (ht ▸ hct) (hnone bill.type hg c hc)
        · obtain rfl : c = bill := by simpa using hc
          exact le_refl _
      · rw [if_neg ht] at hget
        obtain ⟨hb, hbt, hmax⟩ := hsome t b hget
        refine ⟨List.mem_append_left _ hb, hbt, ?_⟩
        intro c hc hct
        rcases List.mem_append.mp hc with hc | hc
        · exact hmax c hc hct
        · obtain rfl : c = bill := by simpa using hc
          exact absurd hct ht
    · intro t hget c hc
      rw [recordGet_recordSet] at hget
      by_cases ht : bill.type = t
      · rw [if_pos ht] at hget
        exact absurd hget (by simp)
      · rw [if_neg ht] at hget
        rcases List.mem_append.mp hc with hc | hc
        · exact hnone t hget c hc
        · obtain rfl : c = bill := by simpa using hc
          exact fun h => ht h
  | some existing =>
    dsimp only
    obtain ⟨hex, hext, hexmax⟩ := hsome bill.type existing hg
    by_cases hlt : dateValue existing.issue_date < dateValue bill.issue_date
    · rw [if_pos hlt]
      constructor
      · intro t b hget
        rw [recordGet_recordSet] at hget
        by_cases ht : bill.type = t
        · rw [if_pos ht] at hget
          obtain rfl : bill = b := by simpa using hget
          refine ⟨by simp, ht, ?_⟩
          intro c hc hct
          rcases List.mem_append.mp hc with hc | hc
          · exact le_of_lt (lt_of_le_of_lt (hexmax c hc (ht ▸ hct)) hlt)
          · obtain rfl : c = bill := by simpa using hc
            exact le_refl _
        · rw [if_neg ht] at hget
          obtain ⟨hb, hbt, hmax⟩ := hsome t b hget
          refine ⟨List.mem_append_left _ hb, hbt, ?_⟩
          intro c hc hct
          rcases List.mem_append.mp hc with hc | hc
          · exact hmax c hc hct
          · obtain rfl : c = bill := by simpa using hc
            exact absurd hct ht
      · intro t hget c hc
        rw [recordGet_recordSet] at hget
        by_cases ht : bill.type = t
        · rw [if_pos ht] at hget
          exact absurd hget (by simp)
        · rw [if_neg ht] at hget
          rcases List.mem_append.mp hc with hc | hc
          · exact hnone t hget c hc
          · obtain rfl : c = bill := by simpa using hc
            exact fun h => ht h
    · rw [if_neg hlt]
      constructor
      · intro t b hget
        obtain ⟨hb, hbt, hmax⟩ := hsome t b hget
        refine ⟨List.mem_append_left _ hb, hbt, ?_⟩
        intro c hc hct
        rcases List.mem_append.mp hc with hc | hc
        · exact hmax c hc hct
        · have hcb : c = bill := by simpa using hc
          subst hcb
          have hbt' : c.type = t := hct
          rw [hbt'] at hg
          rw [hg] at hget
          obtain rfl : existing = b := by simpa using hget
          exact not_lt.mp hlt
      · intro t hget c hc
        rcases List.mem_append.mp hc with hc | hc
        · exact hnone t hget c hc
        · obtain rfl : c = bill := by simpa using hc
          intro hct
          rw [hct] at hg
          rw [hg] at hget
          exact absurd hget (by simp)

theorem billsByType_inv (bills : List BillWithMessageId) :
    GroupInv (billsByType bills) bills := by
  have base : GroupInv [] [] := by
    constructor
    · intro t b hget
      simp [recordGet] at hget
    · intro t _ c hc
      simp at hc
  suffices h : ∀ (l : List BillWithMessageId) acc seen, GroupInv acc seen →
      GroupInv (l.foldl groupStep acc) (seen ++ l) by
    simpa using h bills [] [] base
  intro l
  induction l with
  | nil =>
    intro acc seen h
    simpa using h
  | cons bill rest ih =>
    intro acc seen h
    have := ih (groupStep acc bill) (seen ++ [bill]) (groupStep_inv h bill)
    simpa using this

/-- Reading all keys of an all-keys-distinct record along a key enumeration
that covers them yields exactly the record's values, up to order. -/
theorem filterMap_recordGet_perm :
    ∀ (ts : List BillType) (acc : List (BillType × BillWithMessageId)),
      ts.Nodup → (acc.map Prod.fst).Nodup →
      (∀ k ∈ acc.map Prod.fst, k ∈ ts) →
      List.Perm (ts.filterMap fun t => recordGet acc t) (acc.map Prod.snd) := by
  intro ts
  induction ts with
  | nil =>
    intro acc _ _ hsub
    have : acc = [] := by
      cases acc with
      | nil => rfl
      | cons p rest => exact absurd (hsub p.1 (by simp)) (by simp)
    subst this
    simp
  | cons t ts ih =>
    intro acc hts hkeys hsub
    rw [List.filterMap_cons]
    cases hg : recordGet acc t with
    | none =>
      have hnotin : ∀ p ∈ acc, p.1 ≠ t := (recordGet_eq_none_iff acc t).mp hg
      refine ih acc (List.nodup_cons.mp hts).2 hkeys ?_
      intro k hk
      rcases List.mem_cons.mp (hsub k hk) with h | h
      · subst h
        obtain ⟨p, hp, hpk⟩ := List.mem_map.mp hk
        exact absurd hpk (hnotin p hp)
      · exact h
    | some b =>
      obtain ⟨l1, l2, rfl, hl1⟩ := recordGet_some_split hg
      have htts : t ∉ ts := (List.nodup_cons.mp hts).1
      have hcongr : (ts.filterMap fun t' => recordGet (l1 ++ (t, b) :: l2) t') =
          ts.filterMap fun t' => recordGet (l1 ++ l2) t' := by
        apply List.filterMap_congr
        intro t' ht'
        exact recordGet_middle_ne (fun h => htts (by rw [h]; exact ht')) b l1 l2
      rw [hcongr]
      have hkeys' : ((l1 ++ l2).map Prod.fst).Nodup :=
        hkeys.sublist (((List.sublist_cons_self (t, b) l2).append_left l1).map Prod.fst)
      have hmidnodup : (t :: (l1.map Prod.fst ++ l2.map Prod.fst)).Nodup := by
        have hperm : (l1.map Prod.fst ++ t :: l2.map Prod.fst) ~
            t :: (l1.map Prod.fst ++ l2.map Prod.fst) := List.perm_middle
        refine hperm.nodup_iff.mp ?_
        simpa using hkeys
      have hsub' : ∀ k ∈ (l1 ++ l2).map Prod.fst, k ∈ ts := by
        intro k hk
        have hkacc : k ∈ ((l1 ++ (t, b) :: l2).map Prod.fst) := by
          simp only [List.map_append, List.map_cons] at hk ⊢
          rcases List.mem_append.mp hk with h | h
          · exact List.mem_append_left _ h
          · exact List.mem_append_right _ (List.mem_cons_of_mem _ h)
        rcases List.mem_cons.mp (hsub k hkacc) with h | h
        · subst h
          exfalso
          apply (List.nodup_cons.mp hmidnodup).1
          simpa using hk
        · exact h
      have hperm2 := ih (l1 ++ l2) (List.nodup_cons.mp hts).2 hkeys' hsub'
      have hvals : (l1 ++ (t, b) :: l2).map Prod.snd =
          l1.map Prod.snd ++ b :: l2.map Prod.snd := by simp
      rw [hvals]
      refine (hperm2.cons b).trans ?_
      have : b :: (l1 ++ l2).map Prod.snd =
          b :: (l1.map Prod.snd ++ l2.map Prod.snd) := by simp
      rw [this]
      exact List.perm_middle.symm

/-- C9: `formatBillSummary` returns the fixed no-bills message on the empty
list; otherwise it groups bills by type keeping exactly the
most-recent-by-issue-date record per type (a type is rendered iff some bill
has it), renders one line per type present in the fixed order electricity,
hot_water, water, internet with two-decimal amounts, and ends with a total
equal to the sum of amounts over the displayed one-per-type records only. -/
theorem formatBillSummary_spec :
    formatBillSummary [] = "📊 No bills found in the last 30 days." ∧
    (∀ (bills : List BillWithMessageId) (t : BillType) (b : BillWithMessageId),
      recordGet (billsByType bills) t = some b →
        b ∈ bills ∧ b.type = t ∧
        ∀ c ∈ bills, c.type = t → dateValue c.issue_date ≤ dateValue b.issue_date) ∧
    (∀ (bills : List BillWithMessageId) (t : BillType),
      recordGet (billsByType bills) t = none ↔ ∀ c ∈ bills, c.type ≠ t) ∧
    (∀ bills : List BillWithMessageId,
      summaryTotal bills =
        ((orderedTypes.filterMap fun t => recordGet (billsByType bills) t).map
          (fun b => b.amount)).sum) ∧
    (∀ bills : List BillWithMessageId, bills ≠ [] →
      formatBillSummary bills =
        String.intercalate "\n"
          (["📊 **Bills for last 30 days:**\n"] ++
            (orderedTypes.filterMap fun t =>
              (recordGet (billsByType bills) t).map fun bill => summaryLine t bill) ++
            ["\n**Total:** $" ++ toFixed2 (summaryTotal bills)])) := by
  refine ⟨rfl, ?_, ?_, ?_, ?_⟩
  · intro bills t b hget
    exact (billsByType_inv bills).1 t b hget
  · intro bills t
    constructor
    · intro hget
      exact (billsByType_inv bills).2 t hget
    · intro hall
      cases hg : recordGet (billsByType bills) t with
      | none => rfl
      | some b =>
        obtain ⟨hb, hbt, _⟩ := (billsByType_inv bills).1 t b hg
        exact absurd hbt (hall b hb)
  · intro bills
    have hperm := filterMap_recordGet_perm orderedTypes (billsByType bills)
      (by decide) (billsByType_keysNodup bills)
      (fun k _ => by cases k <;> simp [orderedTypes])
    have hsum := (hperm.map (fun b => b.amount)).sum_eq
    calc summaryTotal bills
        = (((billsByType bills).map Prod.snd).map (fun b => b.amount)).sum := by
          simp [summaryTotal, List.map_map]
          rfl
      _ = ((orderedTypes.filterMap fun t => recordGet (billsByType bills) t).map
            (fun b => b.amount)).sum := hsum.symm
  · intro bills hne
    unfold formatBillSummary
    rw [if_neg (by simpa using fun h => hne (List.length_eq_zero.mp h))]

/-- Scenario A of the spec: four bills of the four types with amounts
$128.45, $32.50, $45.20 and $79.99. -/
def scenarioA : List BillWithMessageId :=
  [⟨.electricity, 12845/100, "2026-01-15T00:00:00.000Z", 95/100, "mE"⟩,
   ⟨.hot_water, 325/10, "2026-01-10T00:00:00.000Z", 92/100, "mH"⟩,
   ⟨.water, 452/10, "2026-01-12T00:00:00.000Z", 91/100, "mW"⟩,
   ⟨.internet, 7999/100, "2026-01-11T00:00:00.000Z", 93/100, "mI"⟩]

/-- Witness for C9: the rendering equation applied to scenario A, whose
four displayed lines cover all four types, and whose rendered total is
exactly "286.14". -/
theorem formatBillSummary_spec_witness :
    (formatBillSummary scenarioA =
      String.intercalate "\n"
        (["📊 **Bills for last 30 days:**\n"] ++
          (orderedTypes.filterMap fun t =>
            (recordGet (billsByType scenarioA) t).map fun bill => summaryLine t bill) ++
          ["\n**Total:** $" ++ toFixed2 (summaryTotal scenarioA)])) ∧
    toFixed2 (summaryTotal scenarioA) = "286.14" := by
  constructor
  · exact formatBillSummary_spec.2.2.2.2 scenarioA (by simp [scenarioA])
  · have hsum : summaryTotal scenarioA = 28614/100 := by
      have : summaryTotal scenarioA =
          12845/100 + (325/10 + (452/10 + (7999/100 + 0))) := rfl
      rw [this]
      norm_num
    rw [hsum]
    unfold toFixed2
    have hfl : (⌊(28614 : ℚ)/100 * 100 + 1/2⌋ : Int) = 28614 := by
      norm_num [Int.floor_eq_iff]
    rw [hfl]
    decide

end BillBot
